import Mathlib

/-!
Verification of the mirror synchronization engine (`src/main.rs` of
ilharp/mirror), via a shallow embedding in Lean 4.

The embedding follows the Rust source:

* `Mirror`, `AdminServer`, `Config` mirror the serde-deserialized
  configuration structs.
* Paths are modelled as lists of components (`List String`); the on-disk
  state is an `FS` record holding a file map (association list, newest
  entry first, so a later write shadows an earlier one) and a set of
  created directories.
* `pathComponents`, `checkDepth`, `enclosedName` model
  `std::path::Path::components` (Unix) and the zip crate's
  `ZipFile::enclosed_name` sanitizer used by `unzip`.
* `resolveComps` models how the OS resolves a path containing `.` / `..`
  components when a file is created at it.
* `unzip`, `sync_intl`, `sync`, `try_sync_by_name`, `admin_handler`,
  `load_config`, `main_intl` are translated from the functions of the
  same names in `src/main.rs`; network and archive-decoding effects are
  passed in as explicit parameters (`FetchOutcome`, a `decode` function
  for the bytes written to the temp file, and `Bool` flags recording
  whether the two `remove_file` calls succeed at the OS level).
* `Step` is the step relation of the whole process: spawning a sync task
  (admin request path through `try_sync_by_name`, or the cron job closure),
  and a running sync task finishing.  The state is the multiset (list) of
  mirror names with a sync task currently in flight; the source spawns
  tasks with `tokio::spawn` and keeps no other sync-related state.
-/

/-- Configuration of one mirror (struct `Mirror` in `main.rs`). -/
structure Mirror where
  name : String
  source : String
  sync : Option String
  serve : Option String
deriving DecidableEq, Repr

/-- Admin server configuration (struct `AdminServer` in `main.rs`). -/
structure AdminServer where
  listen : String
  token : String
deriving DecidableEq, Repr

/-- Whole configuration file (struct `Config` in `main.rs`). -/
structure Config where
  mirrors : List Mirror
  admin_server : Option AdminServer
deriving DecidableEq, Repr

/-- `CURRENT_PATH.join("data")`: the root of serving directories. -/
def dataPath : List String := ["data"]

/-- `CURRENT_PATH.join("tmp")`: the directory of temporary download files. -/
def tempPath : List String := ["tmp"]

/-- A path component in the sense of `std::path::Component` (Unix). -/
inductive PComp where
  | root
  | cur
  | parent
  | normal (s : String)
deriving DecidableEq, Repr

/-- Split a character list at `'/'` separators (the Unix path separator). -/
def splitParts : List Char → List (List Char)
  | [] => [[]]
  | c :: rest =>
    let r := splitParts rest
    if c = '/' then [] :: r
    else
      match r with
      | [] => [[c]]
      | p :: ps => (c :: p) :: ps

/-- Classify a non-initial raw part the way `Path::components` does:
empty parts (repeated or trailing separators) and `.` are normalized away,
`..` is a parent component, anything else a normal component. -/
def classifyPart (p : List Char) : Option PComp :=
  if p = [] then none
  else if p = ['.'] then none
  else if p = ['.', '.'] then some PComp.parent
  else some (PComp.normal (String.mk p))

/-- The first raw part: empty means the path began with `/` (root);
a leading `.` is kept by `Path::components`. -/
def headComp (first : List Char) : List PComp :=
  if first = [] then [PComp.root]
  else if first = ['.'] then [PComp.cur]
  else if first = ['.', '.'] then [PComp.parent]
  else [PComp.normal (String.mk first)]

/-- Model of `Path::new(s).components()` for Unix paths. -/
def pathComponents (s : String) : List PComp :=
  match s.data, splitParts s.data with
  | [], _ => []
  | _ :: _, [] => []
  | _ :: _, first :: rest => headComp first ++ rest.filterMap classifyPart

/-- The depth loop of the zip crate's `ZipFile::enclosed_name`: walk the
components keeping a depth counter, failing on a root (or prefix)
component and on a `..` that would underflow the depth. -/
def checkDepth : List PComp → Nat → Option Nat
  | [], d => some d
  | PComp.root :: _, _ => none
  | PComp.cur :: rest, d => checkDepth rest d
  | PComp.parent :: rest, d =>
    match d with
    | 0 => none
    | Nat.succ d2 => checkDepth rest d2
  | PComp.normal _ :: rest, d => checkDepth rest (d + 1)

/-- Model of `ZipFile::enclosed_name`: `none` for names with a NUL byte,
an absolute component, or a `..` escaping upward; otherwise the (still
unnormalized) component list of the name. -/
def enclosedName (s : String) : Option (List PComp) :=
  if s.data.contains (Char.ofNat 0) then none
  else
    match checkDepth (pathComponents s) 0 with
    | some _ => some (pathComponents s)
    | none => none

/-- Resolution of `.` and `..` components against an accumulated absolute
path, as the OS does when the joined path is opened. -/
def resolveComps (acc : List String) : List PComp → List String
  | [] => acc
  | PComp.root :: rest => resolveComps [] rest
  | PComp.cur :: rest => resolveComps acc rest
  | PComp.parent :: rest => resolveComps acc.dropLast rest
  | PComp.normal s :: rest => resolveComps (acc ++ [s]) rest

/-- Model of `file.name().ends_with('/')`. -/
def endsWithSlash (s : String) : Bool :=
  s.data.getLast? == some '/'

/-- File contents are byte lists. -/
abbrev Bytes := List Nat

/-- On-disk state: a file map (newest association first; a later write
shadows an earlier one) and the set of directories created so far. -/
structure FS where
  files : List (List String × Bytes)
  dirs : List (List String)
deriving DecidableEq, Repr

/-- Scan of the file association list. -/
def lookScan : List (List String × Bytes) → List String → Option Bytes
  | [], _ => none
  | (q, c) :: rest, p => if q = p then some c else lookScan rest p

/-- Remove every association for a path. -/
def removeScan : List (List String × Bytes) → List String → List (List String × Bytes)
  | [], _ => []
  | (q, c) :: rest, p =>
    if q = p then removeScan rest p else (q, c) :: removeScan rest p

/-- Read the current contents of a file, if present. -/
def FS.read (fs : FS) (p : List String) : Option Bytes :=
  lookScan fs.files p

/-- Create or overwrite a file (`fs::File::create` + write). -/
def FS.write (fs : FS) (p : List String) (c : Bytes) : FS :=
  { fs with files := (p, c) :: fs.files }

/-- `remove_file`. -/
def FS.removeFile (fs : FS) (p : List String) : FS :=
  { fs with files := removeScan fs.files p }

/-- `create_dir_all`: creates the directory and all its ancestors. -/
def FS.mkdirAll (fs : FS) (p : List String) : FS :=
  { fs with dirs := p.inits ++ fs.dirs }

/-- Directory existence. -/
def FS.hasDir (fs : FS) (p : List String) : Prop :=
  p ∈ fs.dirs

instance (fs : FS) (p : List String) : Decidable (fs.hasDir p) := by
  unfold FS.hasDir; infer_instance

/-- The empty disk. -/
def fsEmpty : FS := ⟨[], []⟩

/-- One entry of a zip archive: its raw name and its uncompressed bytes
(irrelevant for directory entries). -/
structure ZipEntry where
  name : String
  contents : Bytes
deriving DecidableEq, Repr

/-- A downloaded archive: either `zip::ZipArchive::new` fails on it, or it
yields a list of entries in index order. -/
inductive Archive where
  | corrupt
  | entries (es : List ZipEntry)
deriving DecidableEq, Repr

/-- One iteration of the `unzip` loop, for entry `e`:
entries without an enclosed name are skipped; a name ending in `/` becomes
a directory; otherwise the parent directories are created and the file is
written.  The write happens at the OS-resolved join of `base` and the
entry's components. -/
def extractEntry (base : List String) (fs : FS) (e : ZipEntry) : FS :=
  match enclosedName e.name with
  | none => fs
  | some cs =>
    if endsWithSlash e.name then
      fs.mkdirAll (resolveComps base cs)
    else
      ((fs.mkdirAll (resolveComps base cs).dropLast).write
        (resolveComps base cs) e.contents)

/-- `fn unzip(file, base_path)` of `main.rs`. -/
def unzip (file : Archive) (base_path : List String) (fs : FS) :
    Except String FS :=
  match file with
  | Archive.corrupt => Except.error "invalid Zip archive"
  | Archive.entries es => Except.ok (es.foldl (extractEntry base_path) fs)

/-- The resolved output path of a file entry (none for skipped entries and
directory entries); the set of paths `unzip` writes files at. -/
def entryOut (base : List String) (e : ZipEntry) : Option (List String) :=
  match enclosedName e.name with
  | none => none
  | some cs =>
    if endsWithSlash e.name then none
    else some (resolveComps base cs)

/-- What the network produced for `reqwest::get(&mirror.source)`:
a transport/connection failure, or a response with a status code and a
body byte stream. -/
inductive FetchOutcome where
  | transportError (msg : String)
  | response (status : Nat) (body : Bytes)
deriving DecidableEq, Repr

/-- Whether the fetch step failed (transport error or non-200 status). -/
def fetchFailed : FetchOutcome → Bool
  | FetchOutcome.transportError _ => true
  | FetchOutcome.response s _ => decide (s ≠ 200)

/-- `Except` success as a Bool. -/
def exceptIsOk {α β : Type} : Except α β → Bool
  | Except.ok _ => true
  | Except.error _ => false

/-- `fn sync_intl(mirror)` of `main.rs`, as a state transformer on the
disk.  The environment is explicit: `fetch` is what `reqwest::get`
returned, `decode` turns the downloaded bytes into the archive
`zip::ZipArchive::new` sees, and `removeStaleOk` / `removeOk` record
whether the OS lets the two `remove_file` calls succeed (the first call's
result is discarded by the source via `let _ =`, the second is propagated
with `?`).  Returns the operation's `Result` together with the final disk
state. -/
def sync_intl (mirror : Mirror) (fetch : FetchOutcome)
    (decode : Bytes → Archive) (removeStaleOk removeOk : Bool) (fs : FS) :
    Except String Unit × FS :=
  let filename := mirror.name ++ ".zip"
  let fs := fs.mkdirAll tempPath
  let filepath := tempPath ++ [filename]
  match fetch with
  | FetchOutcome.transportError msg => (Except.error msg, fs)
  | FetchOutcome.response status body =>
    if status ≠ 200 then
      (Except.error ("Sync for " ++ mirror.name ++
        " failed: source response status not OK"), fs)
    else
      let fs := if removeStaleOk then fs.removeFile filepath else fs
      let fs := fs.write filepath body
      let root_path := dataPath ++ [mirror.name]
      match unzip (decode body) root_path fs with
      | Except.error e => (Except.error e, fs)
      | Except.ok fs2 =>
        if removeOk then (Except.ok (), fs2.removeFile filepath)
        else (Except.error ("failed to remove " ++ filename), fs2)

/-- `fn sync(mirror)` of `main.rs`: runs `sync_intl` and swallows the
error (it is only logged), returning the final disk state. -/
def sync (mirror : Mirror) (fetch : FetchOutcome)
    (decode : Bytes → Archive) (removeStaleOk removeOk : Bool) (fs : FS) :
    FS :=
  (sync_intl mirror fetch decode removeStaleOk removeOk fs).2

/-- `fn try_sync_by_name(name)` of `main.rs`, over the multiset `st` of
mirror names with a sync task currently in flight: look the mirror up in
the configured list; if absent return `none`, otherwise `spawn(sync(..))`
— a new sync task for that mirror starts running, unconditionally.  The
source consults no sync-in-progress state. -/
def try_sync_by_name (mirrors : List Mirror) (name : String)
    (st : List String) : Option (List String) :=
  match mirrors.find? (fun x => x.name == name) with
  | none => none
  | some m => some (m.name :: st)

/-- The closure registered with the cron scheduler for a mirror
(`Job::new_async` in `main_intl`): it invokes `sync(&mirror)`
unconditionally, so a new sync task for that mirror starts running. -/
def cron_fire (m : Mirror) (st : List String) : List String :=
  m.name :: st

/-- Step relation of the running process on the multiset of in-flight
sync tasks: an admin request spawns through `try_sync_by_name`, the cron
scheduler fires the job of a mirror that has a `sync` schedule, and a
running sync task finishes. -/
inductive Step (cfg : Config) : List String → List String → Prop where
  | admin (name : String) (st st2 : List String) :
      try_sync_by_name cfg.mirrors name st = some st2 → Step cfg st st2
  | cron (m : Mirror) (st : List String) :
      m ∈ cfg.mirrors → m.sync.isSome → Step cfg st (cron_fire m st)
  | finish (name : String) (st : List String) :
      name ∈ st → Step cfg st (st.erase name)

/-- HTTP request as seen by `admin_handler`: method, URI path, and the
`Authorization` header value if present. -/
structure HttpRequest where
  method : String
  path : String
  auth : Option String
deriving DecidableEq, Repr

/-- HTTP response: status code and body. -/
structure HttpResponse where
  status : Nat
  body : String
deriving DecidableEq, Repr

/-- Character-list test used to model `str::starts_with`. -/
def listStarts : List Char → List Char → Bool
  | [], _ => true
  | _ :: _, [] => false
  | a :: ps, b :: ls => a == b && listStarts ps ls

/-- Model of the `starts_with("/sync/")` check followed by
`strip_prefix("/sync/")` in `admin_handler`: `some name` exactly when the
path begins with `/sync/`, with `name` the rest of the path. -/
def dropSlashSync (s : String) : Option String :=
  if listStarts "/sync/".data s.data then some (String.mk (s.data.drop 6))
  else none

/-- `fn admin_handler(req)` of `main.rs`, over the in-flight multiset
`st`: checks the bearer token, then the method, then the `/sync/<name>`
path shape, then spawns via `try_sync_by_name`.  Returns the response and
the new in-flight multiset (unchanged unless a sync was spawned; the
response never waits for the spawned sync). -/
def admin_handler (token : String) (mirrors : List Mirror)
    (st : List String) (req : HttpRequest) : HttpResponse × List String :=
  match req.auth with
  | none => (⟨403, "[MIRROR] forbidden"⟩, st)
  | some auth =>
    if ("Bearer " ++ token) ≠ auth then (⟨403, "[MIRROR] forbidden"⟩, st)
    else if req.method ≠ "POST" then
      (⟨405, "[MIRROR] method not allowed"⟩, st)
    else
      match dropSlashSync req.path with
      | none => (⟨404, "[MIRROR] not found"⟩, st)
      | some name =>
        match try_sync_by_name mirrors name st with
        | none => (⟨404, "[MIRROR] not found"⟩, st)
        | some st2 => (⟨200, "[MIRROR] sync started"⟩, st2)

/-- The configuration-loading prelude of `main_intl` (lines 79–92):
`readMirrorYml` is the result of reading `mirror.yml` in the current
directory, `readConfigMirrorYml` that of reading `config/mirror.yml`
(only consulted when the first read fails; its error is propagated by
`?`), and `parse` is `serde_yaml::from_str`. -/
def load_config (readMirrorYml readConfigMirrorYml : Except String String)
    (parse : String → Option Config) : Except String Config := do
  let raw ← match readMirrorYml with
    | Except.ok s => Except.ok s
    | Except.error _ => readConfigMirrorYml
  match parse raw with
  | some c => Except.ok c
  | none => Except.error "yaml parse error"

/-- One externally visible action of the startup sequence of `main_intl`. -/
inductive StartupAction where
  | createDir (path : List String)
  | spawnSync (name : String)
  | addCronJob (name : String) (cron : String)
  | bindServe (name : String) (listen : String)
  | bindAdmin (listen : String)
  | startScheduler
deriving DecidableEq, Repr

/-- The actions of one iteration of the mirror loop in `main_intl`
(lines 101–138): create the serving directory, spawn an immediate sync,
then register the cron job if a schedule is configured, then bind the
content server if a listen address is configured. -/
def mirrorActions (m : Mirror) : List StartupAction :=
  [StartupAction.createDir (dataPath ++ [m.name]),
   StartupAction.spawnSync m.name]
  ++ (match m.sync with
      | some cron => [StartupAction.addCronJob m.name cron]
      | none => [])
  ++ (match m.serve with
      | some listen => [StartupAction.bindServe m.name listen]
      | none => [])

/-- The full startup action sequence of `main_intl` after the config is
loaded: the mirror loop, then the admin server binding, then starting the
scheduler. -/
def startupActions (cfg : Config) : List StartupAction :=
  (cfg.mirrors.map mirrorActions).flatten
  ++ (match cfg.admin_server with
      | some s => [StartupAction.bindAdmin s.listen]
      | none => [])
  ++ [StartupAction.startScheduler]

/-- `fn main_intl` after config loading (lines 95–151): fail when no
mirror is configured, otherwise perform the startup actions. -/
def main_intl (cfg : Config) : Except String (List StartupAction) :=
  if cfg.mirrors.isEmpty then Except.error "No mirror found."
  else Except.ok (startupActions cfg)

/-- A mirror without a schedule, used as a concrete test configuration. -/
def docsMirror : Mirror :=
  ⟨"docs", "http://upstream/archive.zip", none, none⟩

/-- A mirror with a cron schedule and a serve address. -/
def docsSched : Mirror :=
  ⟨"docs", "http://upstream/archive.zip", some "0 0 * * * *",
   some "0.0.0.0:8080"⟩

/-- A configuration with one scheduled mirror. -/
def cfg1 : Config := ⟨[docsSched], none⟩

/-- A concrete archive: one escaping entry, one file, one directory entry,
one nested file. -/
def esW : List ZipEntry :=
  [⟨"../evil.txt", [9]⟩, ⟨"a.txt", [1, 2]⟩, ⟨"sub/", []⟩,
   ⟨"sub/b.txt", [3]⟩]

/-- The disk after extracting `esW` under `data/docs` onto an empty disk. -/
def fsW : FS := esW.foldl (extractEntry ["data", "docs"]) fsEmpty

/-- A concrete archive with two file entries of the same name and
different bytes. -/
def esDup : List ZipEntry := [⟨"a.txt", [1]⟩, ⟨"a.txt", [2]⟩]

/-! ## Basic filesystem lemmas -/

theorem read_write_self (fs : FS) (p : List String) (c : Bytes) :
    (fs.write p c).read p = some c := by
  simp [FS.read, FS.write, lookScan]

theorem read_write_ne (fs : FS) (p q : List String) (c : Bytes)
    (h : q ≠ p) : (fs.write q c).read p = fs.read p := by
  simp [FS.read, FS.write, lookScan, h]

theorem read_mkdirAll (fs : FS) (d p : List String) :
    (fs.mkdirAll d).read p = fs.read p := rfl

theorem lookScan_removeScan_self (l : List (List String × Bytes))
    (p : List String) : lookScan (removeScan l p) p = none := by
  induction l with
  | nil => rfl
  | cons a rest ih =>
    obtain ⟨q, c⟩ := a
    by_cases h : q = p
    · simpa [removeScan, h] using ih
    · simpa [removeScan, lookScan, h] using ih

theorem read_removeFile_self (fs : FS) (p : List String) :
    (fs.removeFile p).read p = none :=
  lookScan_removeScan_self fs.files p

theorem self_mem_inits (l : List String) : l ∈ l.inits := by
  rw [List.mem_inits]

/-! ## Path resolution stays under the base directory -/

theorem dropLast_append_left (l1 l2 : List String) (h : l2 ≠ []) :
    (l1 ++ l2).dropLast = l1 ++ l2.dropLast := by
  induction l1 with
  | nil => simp
  | cons a t ih =>
    have h2 : t ++ l2 ≠ [] := by
      intro hc
      exact h (List.append_eq_nil.mp hc).2
    rw [List.cons_append, List.dropLast_cons_of_ne_nil h2, ih,
      List.cons_append]

theorem resolve_under (cs : List PComp) :
    ∀ (d e : Nat) (base extra : List String), extra.length = d →
      checkDepth cs d = some e →
      ∃ extra2, resolveComps (base ++ extra) cs = base ++ extra2 ∧
        extra2.length = e := by
  induction cs with
  | nil =>
    intro d e base extra hlen h
    simp only [checkDepth, Option.some.injEq] at h
    exact ⟨extra, rfl, by rw [hlen, h]⟩
  | cons c rest ih =>
    intro d e base extra hlen h
    cases c with
    | root => simp [checkDepth] at h
    | cur =>
      simp only [checkDepth] at h
      simp only [resolveComps]
      exact ih d e base extra hlen h
    | parent =>
      cases d with
      | zero => simp [checkDepth] at h
      | succ d2 =>
        simp only [checkDepth] at h
        simp only [resolveComps]
        have hne : extra ≠ [] := by
          intro hc
          rw [hc] at hlen
          exact Nat.succ_ne_zero d2 hlen.symm
        rw [dropLast_append_left base extra hne]
        refine ih d2 e base extra.dropLast ?_ h
        rw [List.length_dropLast, hlen]
        rfl
    | normal s =>
      simp only [checkDepth] at h
      simp only [resolveComps]
      rw [List.append_assoc base extra [s]] at *
      refine ih (d + 1) e base (extra ++ [s]) ?_ h
      simp [hlen]

theorem enclosedName_some (s : String) (cs : List PComp)
    (h : enclosedName s = some cs) : ∃ d, checkDepth cs 0 = some d := by
  unfold enclosedName at h
  split at h
  · exact absurd h (by simp)
  · split at h
    · rename_i d hc
      cases h
      exact ⟨d, hc⟩
    · exact absurd h (by simp)

/-! ## Lemmas about the extraction fold -/

theorem extract_read_of_ne (base : List String) (fs : FS) (e : ZipEntry)
    (p : List String) (h : entryOut base e ≠ some p) :
    (extractEntry base fs e).read p = fs.read p := by
  cases henc : enclosedName e.name with
  | none => simp [extractEntry, henc]
  | some cs =>
    by_cases hd : endsWithSlash e.name = true
    · simp [extractEntry, henc, hd, FS.read, FS.mkdirAll]
    · have hout : resolveComps base cs ≠ p := fun hcontra =>
        h (by simp [entryOut, henc, hd, hcontra])
      simp only [extractEntry, henc, hd]
      rw [if_neg (by simp [hd]), read_write_ne _ p _ _ hout, read_mkdirAll]

theorem fold_read_frozen (base p : List String) :
    ∀ (es : List ZipEntry) (fs : FS),
      (∀ e ∈ es, entryOut base e ≠ some p) →
      (es.foldl (extractEntry base) fs).read p = fs.read p := by
  intro es
  induction es with
  | nil => intro fs _; rfl
  | cons e t ih =>
    intro fs hav
    rw [List.foldl_cons,
      ih _ (fun e2 he2 => hav e2 (List.mem_cons_of_mem e he2)),
      extract_read_of_ne base fs e p (hav e (List.mem_cons_self e t))]

theorem extract_dirs_sub (base : List String) (fs : FS) (e : ZipEntry)
    (p : List String) (hp : p ∈ fs.dirs) :
    p ∈ (extractEntry base fs e).dirs := by
  cases henc : enclosedName e.name with
  | none => simpa [extractEntry, henc] using hp
  | some cs =>
    by_cases hd : endsWithSlash e.name = true
    · simp only [extractEntry, henc, hd, if_pos, FS.mkdirAll,
        List.mem_append]
      exact Or.inr hp
    · simp only [extractEntry, henc, hd]
      rw [if_neg (by simp [hd])]
      simp only [FS.write, FS.mkdirAll, List.mem_append]
      exact Or.inr hp

theorem fold_dirs_mono (base p : List String) :
    ∀ (es : List ZipEntry) (fs : FS), p ∈ fs.dirs →
      p ∈ (es.foldl (extractEntry base) fs).dirs := by
  intro es
  induction es with
  | nil => intro fs h; exact h
  | cons e t ih =>
    intro fs h
    exact ih _ (extract_dirs_sub base fs e p h)

theorem fold_changed_mem (base p : List String) :
    ∀ (es : List ZipEntry) (fs : FS),
      (es.foldl (extractEntry base) fs).read p ≠ fs.read p →
      ∃ e, e ∈ es ∧ entryOut base e = some p := by
  intro es
  induction es with
  | nil => intro fs h; exact absurd rfl h
  | cons e t ih =>
    intro fs h
    by_cases hout : entryOut base e = some p
    · exact ⟨e, List.mem_cons_self e t, hout⟩
    · rw [List.foldl_cons] at h
      have h2 : (t.foldl (extractEntry base) (extractEntry base fs e)).read p ≠
          (extractEntry base fs e).read p := by
        rw [extract_read_of_ne base fs e p hout]
        exact h
      obtain ⟨e2, he2, hq⟩ := ih _ h2
      exact ⟨e2, List.mem_cons_of_mem e he2, hq⟩

/-- C5: during extraction, every archive entry whose resolved path would
escape the destination serving directory (no enclosed name) is skipped
without touching the disk, and any path whose file contents differ after
`unzip` lies under the destination directory — no file is ever written
outside the serving directory, for every input archive. -/
theorem unzip_no_escape (base : List String) (es : List ZipEntry)
    (fs fs2 : FS)
    (h : unzip (Archive.entries es) base fs = Except.ok fs2) :
    (∀ e ∈ es, enclosedName e.name = none →
      ∀ fsx : FS, extractEntry base fsx e = fsx) ∧
    (∀ p : List String, fs2.read p ≠ fs.read p →
      ∃ rest, p = base ++ rest) := by
  have hfs2 : fs2 = es.foldl (extractEntry base) fs := by
    simp only [unzip, Except.ok.injEq] at h
    exact h.symm
  constructor
  · intro e _ henc fsx
    simp [extractEntry, henc]
  · intro p hp
    rw [hfs2] at hp
    obtain ⟨e, _, hq⟩ := fold_changed_mem base p es fs hp
    cases henc : enclosedName e.name with
    | none => simp [entryOut, henc] at hq
    | some cs =>
      by_cases hd : endsWithSlash e.name = true
      · simp [entryOut, henc, hd] at hq
      · have hp2 : resolveComps base cs = p := by
          simpa [entryOut, henc, hd] using hq
        obtain ⟨d, hc⟩ := enclosedName_some e.name cs henc
        obtain ⟨extra2, heq, _⟩ :=
          resolve_under cs 0 d base [] rfl hc
        rw [List.append_nil] at heq
        exact ⟨extra2, by rw [← hp2, heq]⟩

/-- Witness for C5: on the concrete archive `esW` (whose first entry
`../evil.txt` escapes), a path changed by extraction under
`data/docs` indeed lies under `data/docs`. -/
theorem unzip_no_escape_witness :
    ∃ rest, ["data", "docs", "a.txt"] = ["data", "docs"] ++ rest :=
  (unzip_no_escape ["data", "docs"] esW fsEmpty fsW rfl).2
    ["data", "docs", "a.txt"] (by decide)

/-- C6 counterexample: an archive with two file entries both named
`a.txt`, with bytes `[1]` and `[2]`: the first entry is a file entry of
the archive with a safe resolved path, extraction succeeds, yet the
resolved path holds the second entry's bytes `[2]` — so the first file
entry is not present with byte-identical contents, refuting the claim
for archives with duplicate resolved paths. -/
theorem unzip_overwrite_counterexample :
    (⟨"a.txt", [1]⟩ : ZipEntry) ∈ esDup ∧
    enclosedName "a.txt" = some [PComp.normal "a.txt"] ∧
    endsWithSlash "a.txt" = false ∧
    unzip (Archive.entries esDup) ["data", "docs"] fsEmpty =
      Except.ok (esDup.foldl (extractEntry ["data", "docs"]) fsEmpty) ∧
    (esDup.foldl (extractEntry ["data", "docs"]) fsEmpty).read
      (resolveComps ["data", "docs"] [PComp.normal "a.txt"]) = some [2] ∧
    (some [2] : Option Bytes) ≠ some [1] := by
  refine ⟨by decide, by decide, by decide, rfl, by decide, by decide⟩

/-- C6 amended: after a successful extraction, provided the file entries
resolve to pairwise distinct paths, every file entry of the archive with
a safe resolved path exists at the corresponding path under the serving
directory with byte-identical contents and its parent directory created,
an existing file of the same relative path having been overwritten
(`FS.read` returns the new association), and every entry whose name ends
in a path separator exists as a directory; when several file entries
resolve to the same path the later one overwrites the earlier, as the
counterexample shows. -/
theorem unzip_installs (base : List String) (es : List ZipEntry) (fs : FS)
    (hnd : (es.filterMap (entryOut base)).Nodup) :
    ∃ fs2, unzip (Archive.entries es) base fs = Except.ok fs2 ∧
      (∀ e ∈ es, ∀ cs, enclosedName e.name = some cs →
        endsWithSlash e.name = false →
        fs2.read (resolveComps base cs) = some e.contents ∧
        fs2.hasDir (resolveComps base cs).dropLast) ∧
      (∀ e ∈ es, ∀ cs, enclosedName e.name = some cs →
        endsWithSlash e.name = true →
        fs2.hasDir (resolveComps base cs)) := by
  refine ⟨es.foldl (extractEntry base) fs, rfl, ?_, ?_⟩
  · intro e hmem cs hsafe hfile
    obtain ⟨s, t, rfl⟩ := List.append_of_mem hmem
    rw [List.foldl_append, List.foldl_cons]
    have hout : entryOut base e = some (resolveComps base cs) := by
      simp [entryOut, hsafe, hfile]
    have hstep : ∀ fs1 : FS, extractEntry base fs1 e =
        (fs1.mkdirAll (resolveComps base cs).dropLast).write
          (resolveComps base cs) e.contents := by
      intro fs1
      simp [extractEntry, hsafe, hfile]
    have havoid : ∀ e2 ∈ t, entryOut base e2 ≠
        some (resolveComps base cs) := by
      intro e2 he2 hq
      have hmemFM : resolveComps base cs ∈ t.filterMap (entryOut base) :=
        List.mem_filterMap.mpr ⟨e2, he2, hq⟩
      have hsplit : ((s ++ e :: t).filterMap (entryOut base)) =
          s.filterMap (entryOut base) ++
          (resolveComps base cs :: t.filterMap (entryOut base)) := by
        rw [List.filterMap_append]
        congr 1
        rw [List.filterMap_cons, hout]
      rw [hsplit] at hnd
      have hnd2 := hnd.of_append_right
      rw [List.nodup_cons] at hnd2
      exact hnd2.1 hmemFM
    constructor
    · rw [fold_read_frozen base (resolveComps base cs) t _ havoid, hstep,
        read_write_self]
    · show _ ∈ _
      apply fold_dirs_mono
      rw [hstep]
      show (resolveComps base cs).dropLast ∈ _
      simp only [FS.write, FS.mkdirAll, List.mem_append]
      exact Or.inl (self_mem_inits _)
  · intro e hmem cs hsafe hdir
    obtain ⟨s, t, rfl⟩ := List.append_of_mem hmem
    rw [List.foldl_append, List.foldl_cons]
    show _ ∈ _
    apply fold_dirs_mono
    simp only [extractEntry, hsafe, hdir, if_pos, FS.mkdirAll,
      List.mem_append]
    exact Or.inl (self_mem_inits _)

/-- Witness for C6: in the concrete archive `esW`, the nested file entry
`sub/b.txt` ends up at `data/docs/sub/b.txt` with its exact bytes. -/
theorem unzip_installs_witness :
    fsW.read ["data", "docs", "sub", "b.txt"] = some [3] := by
  obtain ⟨fs2, heq, hfile, _⟩ :=
    unzip_installs ["data", "docs"] esW fsEmpty (by decide)
  have hfs2 : fs2 = fsW := by
    simp only [unzip, Except.ok.injEq] at heq
    exact heq.symm
  have h2 := hfile ⟨"sub/b.txt", [3]⟩ (by decide)
    [PComp.normal "sub", PComp.normal "b.txt"] (by decide) (by decide)
  rw [hfs2] at h2
  exact h2.1

/-- C2 counterexample: mirror `docs`, a 200 fetch of bytes `[1,2,3]`
that decode to a corrupt archive — the install step fails, the attempt
completes with an error, and the temporary file `tmp/docs.zip` remains on
disk with the downloaded bytes. -/
theorem sync_temp_left_counterexample :
    exceptIsOk (sync_intl docsMirror (FetchOutcome.response 200 [1, 2, 3])
      (fun _ => Archive.corrupt) true true fsEmpty).1 = false ∧
    (sync_intl docsMirror (FetchOutcome.response 200 [1, 2, 3])
      (fun _ => Archive.corrupt) true true fsEmpty).2.read
      (tempPath ++ ["docs.zip"]) = some [1, 2, 3] := by decide

/-- C2 amended: the temporary file is removed on the fully successful
path, and any fetch failure — transport error or non-200 status alike —
leaves the file map (in particular any temp file) unchanged; but on an
install failure the just-downloaded temp file remains on disk until a
later attempt overwrites it — it is not removed on every exit path. -/
theorem sync_temp_amended (m : Mirror) (b : Bytes) (es : List ZipEntry)
    (fs : FS) :
    ((sync_intl m (FetchOutcome.response 200 b)
        (fun _ => Archive.entries es) true true fs).2.read
      (tempPath ++ [m.name ++ ".zip"]) = none) ∧
    (∀ (fetch : FetchOutcome) (decode : Bytes → Archive) (rs ro : Bool),
      fetchFailed fetch = true →
      (sync_intl m fetch decode rs ro fs).2.files = fs.files) ∧
    ((sync_intl m (FetchOutcome.response 200 b)
        (fun _ => Archive.corrupt) true true fs).2.read
      (tempPath ++ [m.name ++ ".zip"]) = some b) := by
  refine ⟨?_, ?_, ?_⟩
  · simp [sync_intl, unzip, read_removeFile_self]
  · intro fetch decode rs ro hf
    have hres : (sync_intl m fetch decode rs ro fs).2 =
        fs.mkdirAll tempPath := by
      cases fetch with
      | transportError msg => rfl
      | response s b2 =>
        have hs : s ≠ 200 := by simpa [fetchFailed] using hf
        rw [sync_intl]
        rw [if_pos hs]
    rw [hres]
    rfl
  · simp only [sync_intl, unzip]
    rw [if_neg (by simp)]
    exact read_write_self _ _ _

/-- Witness for C2 at a concrete non-200 fetch failure (status 404). -/
theorem sync_temp_amended_witness :
    (sync_intl docsMirror (FetchOutcome.response 404 [9])
      (fun _ => Archive.corrupt) true true fsEmpty).2.files = [] :=
  (sync_temp_amended docsMirror [9] [] fsEmpty).2.1
    (FetchOutcome.response 404 [9]) (fun _ => Archive.corrupt) true true
    (by decide)

/-- C3: the fetch step succeeds exactly when the response status is 200:
with a well-formed archive and succeeding removals, the sync succeeds iff
the fetch returned status 200; and any failed fetch — transport error or
non-200 status alike — makes the sync report an error, whatever the
decoder and removal flags, so both failure kinds are the same `Err` at
the pipeline boundary. -/
theorem fetch_ok_iff_200 (m : Mirror) (es : List ZipEntry) (fs : FS)
    (fetch : FetchOutcome) :
    (exceptIsOk (sync_intl m fetch (fun _ => Archive.entries es) true true
        fs).1 = true ↔ (∃ b, fetch = FetchOutcome.response 200 b)) ∧
    (∀ (decode : Bytes → Archive) (rs ro : Bool),
      fetchFailed fetch = true →
      exceptIsOk (sync_intl m fetch decode rs ro fs).1 = false) := by
  constructor
  · constructor
    · intro h
      cases fetch with
      | transportError msg => simp [sync_intl, exceptIsOk] at h
      | response s b =>
        by_cases hs : s = 200
        · exact ⟨b, by rw [hs]⟩
        · rw [sync_intl] at h
          rw [if_pos hs] at h
          simp [exceptIsOk] at h
    · rintro ⟨b, rfl⟩
      simp [sync_intl, unzip, exceptIsOk]
  · intro decode rs ro hf
    cases fetch with
    | transportError msg => simp [sync_intl, exceptIsOk]
    | response s b =>
      have hs : s ≠ 200 := by simpa [fetchFailed] using hf
      rw [sync_intl]
      rw [if_pos hs]
      simp [exceptIsOk]

/-- Witness for C3 at a concrete failed fetch. -/
theorem fetch_ok_iff_200_witness :
    exceptIsOk (sync_intl docsMirror (FetchOutcome.response 404 [])
      (fun _ => Archive.corrupt) false false fsEmpty).1 = false :=
  (fetch_ok_iff_200 docsMirror [] fsEmpty
    (FetchOutcome.response 404 [])).2 (fun _ => Archive.corrupt)
    false false (by decide)

/-- C4: a failed fetch (non-200 status or transport error) leaves the
file map entirely unchanged — in particular every file of the serving
directory — and leaves every directory under `data` as it was; nothing is
marked broken: a subsequent attempt for the same mirror with a good fetch
and archive succeeds. -/
theorem sync_fetch_fail_frame (m : Mirror) (fetch : FetchOutcome)
    (decode : Bytes → Archive) (rs ro : Bool) (fs : FS)
    (hf : fetchFailed fetch = true) :
    ((sync_intl m fetch decode rs ro fs).2.files = fs.files) ∧
    (∀ p, (sync_intl m fetch decode rs ro fs).2.read p = fs.read p) ∧
    (∀ p, (sync_intl m fetch decode rs ro fs).2.hasDir (dataPath ++ p) ↔
      fs.hasDir (dataPath ++ p)) ∧
    (∀ (b : Bytes) (es : List ZipEntry) (fs2 : FS),
      exceptIsOk (sync_intl m (FetchOutcome.response 200 b)
        (fun _ => Archive.entries es) true true fs2).1 = true) := by
  have hres : (sync_intl m fetch decode rs ro fs).2 = fs.mkdirAll tempPath := by
    cases fetch with
    | transportError msg => rfl
    | response s b =>
      have hs : s ≠ 200 := by simpa [fetchFailed] using hf
      rw [sync_intl]
      rw [if_pos hs]
  refine ⟨by rw [hres]; rfl, fun p => by rw [hres]; rfl, fun p => ?_, ?_⟩
  · rw [hres]
    show _ ∈ _ ↔ _ ∈ _
    simp only [FS.mkdirAll, tempPath, dataPath, List.mem_append]
    constructor
    · rintro (hin | hin)
      · simp [List.inits] at hin
      · exact hin
    · exact fun hin => Or.inr hin
  · intro b es fs2
    simp [sync_intl, unzip, exceptIsOk]

/-- Witness for C4 at a concrete 404 fetch. -/
theorem sync_fetch_fail_frame_witness :
    (sync_intl docsMirror (FetchOutcome.response 404 [7])
      (fun _ => Archive.corrupt) true true fsEmpty).2.files = [] := by
  have h := sync_fetch_fail_frame docsMirror (FetchOutcome.response 404 [7])
    (fun _ => Archive.corrupt) true true fsEmpty (by decide)
  exact h.1

/-- C8 counterexample: a sync of `docs` whose fetch (status 200) and
install (empty well-formed archive) both succeed reports failure when the
final temp-file removal fails, and success when it succeeds — so a
cleanup failure does make the overall sync fail. -/
theorem sync_remove_fail_counterexample :
    exceptIsOk (sync_intl docsMirror (FetchOutcome.response 200 [7])
      (fun _ => Archive.entries []) true false fsEmpty).1 = false ∧
    exceptIsOk (sync_intl docsMirror (FetchOutcome.response 200 [7])
      (fun _ => Archive.entries []) true true fsEmpty).1 = true := by decide

/-- C8 amended: the pre-download removal of a stale temp file is
best-effort (its failure never changes the outcome), but a failure of the
post-install `remove_file` is propagated with `?`: the sync reports
failure even though fetch and install both succeeded. -/
theorem sync_remove_fail_propagates (m : Mirror) (b : Bytes)
    (es : List ZipEntry) (fs : FS) (rs : Bool) :
    exceptIsOk (sync_intl m (FetchOutcome.response 200 b)
      (fun _ => Archive.entries es) rs false fs).1 = false ∧
    exceptIsOk (sync_intl m (FetchOutcome.response 200 b)
      (fun _ => Archive.entries es) false true fs).1 = true := by
  constructor <;> simp [sync_intl, unzip, exceptIsOk]

/-- C7 counterexample: an authorized POST to `/sync/docs` for the known
mirror `docs` gets status 200, but the response body is
"[MIRROR] sync started", not "sync started" as the claim states. -/
theorem admin_body_counterexample :
    (admin_handler "tok" [docsMirror] []
      ⟨"POST", "/sync/docs", some "Bearer tok"⟩).1 =
      (⟨200, "[MIRROR] sync started"⟩ : HttpResponse) ∧
    "[MIRROR] sync started" ≠ "sync started" := by decide

/-- C7 amended: a request whose Authorization header is missing or
differs from the exact "Bearer " ++ token value gets 403; with a valid
token a non-POST gets 405; then a path not starting with `/sync/` gets
404; a `/sync/<name>` path with `name` not a configured mirror gets 404;
and for a known mirror the response is 200 with body
"[MIRROR] sync started", issued with the sync merely spawned (the
response never waits for it); no sync is spawned in any rejection case. -/
theorem admin_handler_behavior (token : String) (mirrors : List Mirror)
    (st : List String) (req : HttpRequest) :
    (req.auth ≠ some ("Bearer " ++ token) →
      admin_handler token mirrors st req =
        (⟨403, "[MIRROR] forbidden"⟩, st)) ∧
    (req.auth = some ("Bearer " ++ token) → req.method ≠ "POST" →
      admin_handler token mirrors st req =
        (⟨405, "[MIRROR] method not allowed"⟩, st)) ∧
    (req.auth = some ("Bearer " ++ token) → req.method = "POST" →
      dropSlashSync req.path = none →
      admin_handler token mirrors st req =
        (⟨404, "[MIRROR] not found"⟩, st)) ∧
    (∀ name, req.auth = some ("Bearer " ++ token) → req.method = "POST" →
      dropSlashSync req.path = some name →
      mirrors.find? (fun x => x.name == name) = none →
      admin_handler token mirrors st req =
        (⟨404, "[MIRROR] not found"⟩, st)) ∧
    (∀ name m0, req.auth = some ("Bearer " ++ token) →
      req.method = "POST" → dropSlashSync req.path = some name →
      mirrors.find? (fun x => x.name == name) = some m0 →
      admin_handler token mirrors st req =
        (⟨200, "[MIRROR] sync started"⟩, m0.name :: st)) := by
  refine ⟨?_, ?_, ?_, ?_, ?_⟩
  · intro hne
    cases hauth : req.auth with
    | none => simp [admin_handler, hauth]
    | some a =>
      have ha : ("Bearer " ++ token) ≠ a := by
        intro hc
        exact hne (by rw [hauth, hc])
      simp [admin_handler, hauth, ha]
  · intro hauth hmethod
    simp [admin_handler, hauth, hmethod]
  · intro hauth hmethod hdrop
    simp [admin_handler, hauth, hmethod, hdrop]
  · intro name hauth hmethod hdrop hfind
    simp [admin_handler, hauth, hmethod, hdrop, try_sync_by_name, hfind]
  · intro name m0 hauth hmethod hdrop hfind
    simp [admin_handler, hauth, hmethod, hdrop, try_sync_by_name, hfind]

/-- Witness for C7: the concrete authorized POST for the known mirror
`docs` yields 200 and spawns the sync. -/
theorem admin_handler_behavior_witness :
    admin_handler "tok" [docsMirror] []
      ⟨"POST", "/sync/docs", some "Bearer tok"⟩ =
      (⟨200, "[MIRROR] sync started"⟩, ["docs"]) :=
  (admin_handler_behavior "tok" [docsMirror] []
    ⟨"POST", "/sync/docs", some "Bearer tok"⟩).2.2.2.2 "docs" docsMirror
    rfl rfl (by decide) (by decide)

/-- C1 counterexample: from the idle state, an admin trigger for `docs`
spawns a sync, and while it is still in flight the cron trigger for the
same mirror spawns a second one: a state with two concurrent syncs of
`docs` is reachable, and `try_sync_by_name` spawns (returns `some`)
rather than rejecting while one is already running. -/
theorem concurrent_syncs_counterexample :
    Relation.ReflTransGen (Step cfg1) [] ["docs", "docs"] ∧
    (["docs", "docs"] : List String).count "docs" = 2 ∧
    try_sync_by_name cfg1.mirrors "docs" ["docs"] =
      some ["docs", "docs"] := by
  refine ⟨?_, by decide, by decide⟩
  have h1 : Step cfg1 [] ["docs"] :=
    Step.admin "docs" [] ["docs"] (by decide)
  have h2 : Step cfg1 ["docs"] ["docs", "docs"] :=
    Step.cron docsSched ["docs"] (by decide) (by decide)
  exact Relation.ReflTransGen.tail (Relation.ReflTransGen.single h1) h2

theorem find_name_some (mirrors : List Mirror) (name : String)
    (hm : ∃ m ∈ mirrors, m.name = name) :
    ∃ m0, mirrors.find? (fun x => x.name == name) = some m0 ∧
      m0.name = name := by
  induction mirrors with
  | nil =>
    obtain ⟨m, hmem, _⟩ := hm
    exact absurd hmem (List.not_mem_nil m)
  | cons a t ih =>
    by_cases h : a.name = name
    · exact ⟨a, List.find?_cons_of_pos _ (by simp [h]), h⟩
    · obtain ⟨m, hmem, hname⟩ := hm
      rcases List.mem_cons.mp hmem with heq | hmem2
      · exact absurd (heq ▸ hname) h
      · obtain ⟨m0, hf, hn⟩ := ih ⟨m, hmem2, hname⟩
        refine ⟨m0, ?_, hn⟩
        rw [List.find?_cons_of_neg _ (by simp [h])]
        exact hf

/-- C1 amended: the code enforces no per-mirror mutual exclusion: while
a sync of a mirror is still in flight, a trigger for the same mirror
(here the admin path through `try_sync_by_name`) spawns another sync
rather than rejecting it or skipping it, reaching a state with at least
two syncs of that mirror running concurrently. -/
theorem no_mutual_exclusion (cfg : Config) (name : String)
    (st : List String) (hm : ∃ m ∈ cfg.mirrors, m.name = name)
    (hr : name ∈ st) :
    ∃ st2, Step cfg st st2 ∧ 2 ≤ st2.count name := by
  obtain ⟨m0, hf, hn⟩ := find_name_some cfg.mirrors name hm
  refine ⟨m0.name :: st, Step.admin name st _ ?_, ?_⟩
  · simp [try_sync_by_name, hf]
  · rw [hn, List.count_cons_self]
    have hpos : 0 < st.count name := List.count_pos_iff.mpr hr
    omega

/-- Witness for C1: with the scheduled mirror `docs` already syncing,
another sync is spawned and two run concurrently. -/
theorem no_mutual_exclusion_witness :
    ∃ st2, Step cfg1 ["docs"] st2 ∧ 2 ≤ st2.count "docs" :=
  no_mutual_exclusion cfg1 "docs" ["docs"]
    ⟨docsSched, by decide, rfl⟩ (by decide)

/-- C9: for every configured mirror — with no condition on its `sync`
schedule — startup succeeds and its action sequence contains an
immediate sync spawn for that mirror; and within the mirror's own loop
iteration the sync spawn comes right after the serving-directory
creation, before the content server (when configured) is bound. -/
theorem startup_spawns_all (cfg : Config) (m : Mirror)
    (hm : m ∈ cfg.mirrors) :
    (∃ acts, main_intl cfg = Except.ok acts ∧
      StartupAction.spawnSync m.name ∈ acts) ∧
    (∀ listen, m.serve = some listen →
      ∃ rest, mirrorActions m =
        [StartupAction.createDir (dataPath ++ [m.name]),
         StartupAction.spawnSync m.name] ++ rest ∧
        StartupAction.bindServe m.name listen ∈ rest) := by
  constructor
  · have hne : cfg.mirrors.isEmpty = false := by
      cases hcm : cfg.mirrors with
      | nil => rw [hcm] at hm; exact absurd hm (List.not_mem_nil m)
      | cons a t => rfl
    refine ⟨startupActions cfg, by simp [main_intl, hne], ?_⟩
    have hmem : StartupAction.spawnSync m.name ∈ mirrorActions m := by
      unfold mirrorActions
      exact List.mem_append_left _ (List.mem_append_left _ (by simp))
    unfold startupActions
    refine List.mem_append_left _ (List.mem_append_left _ ?_)
    exact List.mem_flatten.mpr
      ⟨mirrorActions m, List.mem_map_of_mem mirrorActions hm, hmem⟩
  · intro listen hserve
    cases hsync : m.sync with
    | none =>
      refine ⟨[StartupAction.bindServe m.name listen], ?_, by simp⟩
      simp [mirrorActions, hserve, hsync]
    | some cron =>
      refine ⟨[StartupAction.addCronJob m.name cron,
        StartupAction.bindServe m.name listen], ?_, by simp⟩
      simp [mirrorActions, hserve, hsync]

/-- Witness for C9: the schedule-less mirror `docs` still gets a startup
sync spawn. -/
theorem startup_spawns_all_witness :
    StartupAction.spawnSync "docs" ∈ startupActions ⟨[docsMirror], none⟩ := by
  obtain ⟨⟨acts, hacts, hmem⟩, _⟩ :=
    startup_spawns_all ⟨[docsMirror], none⟩ docsMirror (by decide)
  have heq : startupActions ⟨[docsMirror], none⟩ = acts := by
    simpa [main_intl] using hacts
  rw [heq]
  exact hmem

/-- C10: the configuration is the parse of `mirror.yml` when that file
is readable; when it is not, `config/mirror.yml` is read as fallback and
its parse is used; when both reads fail loading fails; and a loading
failure happens only when both reads fail or the chosen contents do not
parse. -/
theorem load_config_fallback (r1 r2 : Except String String)
    (parse : String → Option Config) :
    (∀ s c, r1 = Except.ok s → parse s = some c →
      load_config r1 r2 parse = Except.ok c) ∧
    (∀ e s c, r1 = Except.error e → r2 = Except.ok s → parse s = some c →
      load_config r1 r2 parse = Except.ok c) ∧
    (∀ e1 e2, r1 = Except.error e1 → r2 = Except.error e2 →
      exceptIsOk (load_config r1 r2 parse) = false) ∧
    (exceptIsOk (load_config r1 r2 parse) = false →
      (∃ e1 e2, r1 = Except.error e1 ∧ r2 = Except.error e2) ∨
      (∃ s, parse s = none ∧ (r1 = Except.ok s ∨
        (∃ e, r1 = Except.error e ∧ r2 = Except.ok s)))) := by
  refine ⟨?_, ?_, ?_, ?_⟩
  · intro s c h1 hp
    simp [load_config, h1, hp, Bind.bind, Except.bind]
  · intro e s c h1 h2 hp
    simp [load_config, h1, h2, hp, Bind.bind, Except.bind]
  · intro e1 e2 h1 h2
    simp [load_config, h1, h2, Bind.bind, Except.bind, exceptIsOk]
  · intro hfail
    cases h1 : r1 with
    | ok s =>
      cases hp : parse s with
      | some c =>
        simp [load_config, h1, hp, Bind.bind, Except.bind,
          exceptIsOk] at hfail
      | none => exact Or.inr ⟨s, hp, Or.inl rfl⟩
    | error e =>
      cases h2 : r2 with
      | ok s =>
        cases hp : parse s with
        | some c =>
          simp [load_config, h1, h2, hp, Bind.bind, Except.bind,
            exceptIsOk] at hfail
        | none => exact Or.inr ⟨s, hp, Or.inr ⟨e, rfl, rfl⟩⟩
      | error e2 => exact Or.inl ⟨e, e2, rfl, rfl⟩

/-- Witness for C10: with `mirror.yml` unreadable and `config/mirror.yml`
readable and parsable, loading succeeds with the fallback's parse. -/
theorem load_config_fallback_witness :
    load_config (Except.error "not found") (Except.ok "yaml")
      (fun _ => some cfg1) = Except.ok cfg1 :=
  (load_config_fallback (Except.error "not found") (Except.ok "yaml")
    (fun _ => some cfg1)).2.1 "not found" "yaml" cfg1 rfl rfl rfl
